import Mathlib

/-!
Shallow embedding of `scripts/sudoku.py` (sudoku-skill repository): the
script-array extractor, the lenient object normalizer, the puzzle corpus
store, the picker/deduplicator and the crop geometry, together with proofs
of the specified properties.

Python strings are modelled as `List Char`; the file-system corpus is
modelled as a list of `(filename, document)` pairs ordered by ascending
modification time; randomness (`random.Random(seed).randrange`,
`random.shuffle`) is modelled by oracle functions, constrained by
hypotheses where the code relies on their contracts.
-/

/-- Python strings, modelled as lists of characters. -/
abbrev Str := List Char

/-- The double-quote character. -/
def quoteD : Char := Char.ofNat 34

/-- The single-quote character. -/
def quoteS : Char := Char.ofNat 39

/-- The backslash character. -/
def backslashC : Char := Char.ofNat 92

/-- The opening curly brace. -/
def braceL : Char := Char.ofNat 123

/-- The closing curly brace. -/
def braceR : Char := Char.ofNat 125

/-- Text of the marker `const <name> = ` that precedes the opening bracket
in `_extract_js_array_contents`. -/
def markerFront (varName : Str) : Str :=
  ("const ".toList) ++ varName ++ (" = ".toList)

/-- The full marker `const <name> = [` searched by `html.find` in
`_extract_js_array_contents`. -/
def mkMarker (varName : Str) : Str := markerFront varName ++ ['[']

/-- Index of the first occurrence of `pat` inside `hay` (Python `str.find`,
with `none` for `-1`). -/
def findSub : Str → Str → Option Nat
  | [], pat => if pat <+: ([] : Str) then some 0 else none
  | c :: rest, pat =>
    if pat <+: (c :: rest) then some 0 else (findSub rest pat).map (· + 1)

/-- Scanner loop of `_extract_js_array_contents`.  The state mirrors the
source: `depth`, `in_string`, `string_quote`, `escape`.  The result is the
list of characters consumed before (and excluding) the closing bracket at
which the depth returns to `0`, and `none` when the end of the text is
reached first. -/
def jsScan (depth : Int) (inString : Bool) (stringQuote : Char) (escape : Bool) :
    Str → Option Str
  | [] => none
  | ch :: rest =>
    if inString then
      if escape then (jsScan depth inString stringQuote false rest).map (ch :: ·)
      else if ch = backslashC then (jsScan depth inString stringQuote true rest).map (ch :: ·)
      else if ch = stringQuote then (jsScan depth false stringQuote escape rest).map (ch :: ·)
      else (jsScan depth inString stringQuote escape rest).map (ch :: ·)
    else if ch = quoteS ∨ ch = quoteD then (jsScan depth true ch escape rest).map (ch :: ·)
    else if ch = '[' then (jsScan (depth + 1) inString stringQuote escape rest).map (ch :: ·)
    else if ch = ']' then
      if depth - 1 = 0 then some []
      else (jsScan (depth - 1) inString stringQuote escape rest).map (ch :: ·)
    else (jsScan depth inString stringQuote escape rest).map (ch :: ·)

/-- Errors of the script-array extractor: the marker is absent (`NotFound`,
message `Could not find <name> in HTML`) or the array is unterminated
(`MalformedInput`, message `Could not parse <name> array from HTML`). -/
inductive ExtractErr where
  | notFound
  | malformed
deriving DecidableEq, Repr

/-- Embedding of `_extract_js_array_contents`: locate the first occurrence of
`const <name> = [`, then scan from the opening bracket with the
bracket/quote/escape state machine and return the text strictly between the
opening bracket and the closing bracket at which the depth returns to 0. -/
def _extract_js_array_contents (html varName : Str) : Except ExtractErr Str :=
  match findSub html (mkMarker varName) with
  | none => .error .notFound
  | some markerPos =>
    let start := markerPos + (mkMarker varName).length - 1
    match jsScan 0 false ' ' false (html.drop start) with
    | some s => .ok (s.drop 1)
    | none => .error .malformed

/-- Character sequences that a quoted string with quote `q` consumes without
leaving string mode: a backslash escapes the following character, and a plain
character must be neither a backslash nor the closing quote. -/
inductive StringOpaque (q : Char) : Str → Prop where
  | nil : StringOpaque q []
  | esc (c : Char) (rest : Str) :
      StringOpaque q rest → StringOpaque q (backslashC :: c :: rest)
  | plain (c : Char) (rest : Str) :
      c ≠ backslashC → c ≠ q → StringOpaque q rest → StringOpaque q (c :: rest)

/-- Characters on which the scanner, outside of string mode, does nothing:
neither quote nor bracket. -/
def InertChar (c : Char) : Prop :=
  c ≠ quoteS ∧ c ≠ quoteD ∧ c ≠ '[' ∧ c ≠ ']'

deriving instance DecidableEq for Except

-- MORE-DEFS

/-- Lowercasing of a Python string (`str.lower`). -/
def lowerStr (s : Str) : Str := s.map Char.toLower

/-- First hyphen-delimited segment of an identifier (`s.split("-")[0]`). -/
def takeShort (s : Str) : Str := s.takeWhile (fun c => !(c == '-'))

/-- Python `str.strip()` restricted to whitespace. -/
def stripWs (s : Str) : Str :=
  ((s.dropWhile Char.isWhitespace).reverse.dropWhile Char.isWhitespace).reverse

/-- Characters admitted by the identifier pattern `[0-9A-Fa-f-]`. -/
def isHexDashChar (c : Char) : Prop :=
  ('0' ≤ c ∧ c ≤ '9') ∨ ('a' ≤ c ∧ c ≤ 'f') ∨ ('A' ≤ c ∧ c ≤ 'F') ∨ c = '-'

instance (c : Char) : Decidable (isHexDashChar c) := by
  unfold isHexDashChar
  infer_instance

/-- Errors raised by `_normalize_id_fragment`: the empty identifier or a
charset/length violation (both surfaced as `InvalidIdentifier`). -/
inductive IdErr where
  | emptyId
  | badFormat
deriving DecidableEq, Repr

/-- Embedding of `_normalize_id_fragment`: strip whitespace, reject the empty
string, then require a full match of `[0-9A-Fa-f-]{1,64}`. -/
def _normalize_id_fragment (value : Str) : Except IdErr Str :=
  let s := stripWs value
  if s = [] then .error .emptyId
  else if s.length ≤ 64 ∧ ∀ c ∈ s, isHexDashChar c then .ok s
  else .error .badFormat

/-- Identifiers that `_normalize_id_fragment` accepts unchanged. -/
def ValidId (s : Str) : Prop :=
  s ≠ [] ∧ s.length ≤ 64 ∧ ∀ c ∈ s, isHexDashChar c

instance (s : Str) : Decidable (ValidId s) := by
  unfold ValidId
  infer_instance

/-- A stored puzzle document, restricted to the fields the corpus layer
reads: `created_utc`, `preset.key`, `size` and `picked.id`. -/
structure Doc where
  created_utc : Str
  presetKey : Str
  size : Nat
  pid : Str
deriving DecidableEq, Repr

/-- The corpus on disk: `(filename, document)` pairs in ascending mtime
order, as listed by `list_puzzle_jsons`. -/
abbrev CorpusSt := List (Str × Doc)

/-- Decimal rendering of a natural number, as the f-string `{size}`. -/
def natStr (n : Nat) : Str := (Nat.repr n).toList

/-- Embedding of `puzzle_json_filename`:
`{stamp}_{preset_key}_{size}x{size}_{short}.json`. -/
def puzzle_json_filename (stamp presetKey : Str) (size : Nat) (puzzleId : Str) : Str :=
  stamp ++ ("_".toList) ++ presetKey ++ ("_".toList) ++ natStr size ++ ("x".toList) ++
    natStr size ++ ("_".toList) ++ takeShort puzzleId ++ (".json".toList)

/-- The stamp chosen by `write_puzzle_json`: the document's `created_utc`
when truthy, else the current time. -/
def writeStamp (now : Str) (d : Doc) : Str :=
  if d.created_utc = [] then now else d.created_utc

/-- The filename under which `write_puzzle_json` stores `d`. -/
def writeFilename (now : Str) (d : Doc) : Str :=
  puzzle_json_filename (writeStamp now d) d.presetKey d.size d.pid

/-- Embedding of `write_puzzle_json`: writing replaces any existing file of
the same name, and the written file becomes the most recent entry. -/
def write_puzzle_json (st : CorpusSt) (now : Str) (d : Doc) : CorpusSt :=
  st.filter (fun e => !(e.1 == writeFilename now d)) ++ [(writeFilename now d, d)]

/-- Filename filter of the resolver fast path:
`p.name.lower().endswith(f"_{sid}.json")`. -/
def filenameMatchesShort (name sid : Str) : Bool :=
  decide ((('_' :: sid) ++ (".json".toList)) <:+ lowerStr name)

/-- Errors of corpus resolution: `InvalidIdentifier` or `NotFound`. -/
inductive ResolveErr where
  | invalidIdentifier (e : IdErr)
  | notFoundId
deriving DecidableEq, Repr

/-- Embedding of `find_puzzle_json_by_short_id`: normalize, take the short
segment, filter filenames by suffix and return the most recent match. -/
def find_puzzle_json_by_short_id (st : CorpusSt) (shortId : Str) :
    Except ResolveErr (Str × Doc) :=
  match _normalize_id_fragment shortId with
  | .error e => .error (.invalidIdentifier e)
  | .ok norm =>
    let sid := lowerStr (takeShort norm)
    match (st.filter (fun e => filenameMatchesShort e.1 sid)).getLast? with
    | some m => .ok m
    | none => .error .notFoundId

/-- Embedding of `find_puzzle_json_by_id`.  Fast path: filter filenames by
the `_{sid}.json` suffix; a short-only identifier returns the most recent
match unverified, a full identifier is verified against `picked.id`
case-insensitively most-recent-first.  Slow path: scan every stored document
most-recent-first comparing `picked.id`. -/
def find_puzzle_json_by_id (st : CorpusSt) (puzzleId : Str) :
    Except ResolveErr (Str × Doc) :=
  match _normalize_id_fragment puzzleId with
  | .error e => .error (.invalidIdentifier e)
  | .ok norm =>
    let sid := lowerStr (takeShort norm)
    let candidates := st.filter (fun e => filenameMatchesShort e.1 sid)
    let fastPath : Option (Str × Doc) :=
      match candidates.getLast? with
      | none => none
      | some lastC =>
        if !(norm.contains '-') then some lastC
        else candidates.reverse.find? (fun e => lowerStr e.2.pid == lowerStr norm)
    match fastPath with
    | some m => .ok m
    | none =>
      match st.reverse.find? (fun e => lowerStr e.2.pid == lowerStr norm) with
      | some m => .ok m
      | none => .error .notFoundId

/-- A raw candidate record of the fetched batch; the picker reads only the
`id` field. -/
structure PuzzleRec where
  pid : Str
deriving DecidableEq, Repr, Inhabited

/-- Embedding of `_previously_used_puzzle_ids`: the `picked.id` of every
stored document, skipping falsy ids. -/
def _previously_used_puzzle_ids (st : CorpusSt) : List Str :=
  st.filterMap (fun e => if e.2.pid = [] then none else some e.2.pid)

/-- Errors of `pick_puzzle` (each a `ValueError` in the source): empty
batch, invalid fragment, unmatched fragment, ambiguous fragment with the
first 5 colliding ids and the truncation count, index out of range. -/
inductive PickErr where
  | noPuzzles
  | invalidId (e : IdErr)
  | fragmentNotFound (frag : Str)
  | ambiguous (matchCount : Nat) (shown : List Str) (extra : Nat)
  | indexOutOfRange (index : Int) (total : Nat)
deriving DecidableEq, Repr

/-- The case-insensitive fragment matches of `pick_puzzle`: enumerated
candidates whose lowercased id contains the (truthy) lowercased needle. -/
def fragMatches (puzzles : List PuzzleRec) (norm : Str) : List (Nat × PuzzleRec) :=
  puzzles.enum.filter
    (fun ip => !(lowerStr norm == []) && decide (lowerStr norm <:+: lowerStr ip.2.pid))

/-- The fresh sub-batch of the random pick: enumerated candidates whose id
is not among the previously used ids. -/
def freshPool (puzzles : List PuzzleRec) (st : CorpusSt) : List (Nat × PuzzleRec) :=
  puzzles.enum.filter (fun ip => decide (ip.2.pid ∉ _previously_used_puzzle_ids st))

/-- The draw pool of the random pick: the fresh sub-batch when nonempty,
else the whole enumerated batch. -/
def randomPool (puzzles : List PuzzleRec) (st : CorpusSt) : List (Nat × PuzzleRec) :=
  if freshPool puzzles st ≠ [] then freshPool puzzles st else puzzles.enum

/-- Embedding of `pick_puzzle`.  `random.Random(seed).randrange` is the
oracle `randrange`, mapping the seed and the pool size to the drawn index;
its stdlib contract (the result is below the pool size) is a hypothesis of
the theorems that rely on it, and the fallback arm for an oracle breaking
the contract mirrors the `IndexError` that Python would raise. -/
def pick_puzzle (puzzles : List PuzzleRec) (index : Option Int)
    (puzzleId : Option Str) (seed : Option Str) (st : CorpusSt)
    (randrange : Option Str → Nat → Nat) :
    Except PickErr (PuzzleRec × Nat) :=
  if puzzles = [] then .error .noPuzzles
  else
    match puzzleId with
    | some pidArg =>
      match _normalize_id_fragment pidArg with
      | .error e => .error (.invalidId e)
      | .ok norm =>
        let ms := fragMatches puzzles norm
        if ms = [] then .error (.fragmentNotFound pidArg)
        else if 1 < ms.length then
          .error (.ambiguous ms.length ((ms.take 5).map (fun ip => ip.2.pid))
            (if ms.length ≤ 5 then 0 else ms.length - 5))
        else
          match ms with
          | ip :: _ => .ok (ip.2, ip.1)
          | [] => .error (.fragmentNotFound pidArg)
    | none =>
      match index with
      | some idx =>
        let i : Int := if idx = 0 then 0 else idx - 1
        if i < 0 ∨ (puzzles.length : Int) ≤ i then
          .error (.indexOutOfRange idx puzzles.length)
        else
          match puzzles.get? i.toNat with
          | some p => .ok (p, i.toNat)
          | none => .error (.indexOutOfRange idx puzzles.length)
      | none =>
        let pool := randomPool puzzles st
        match pool.get? (randrange seed pool.length) with
        | some ip => .ok (ip.2, ip.1)
        | none => .error .noPuzzles

/-- Pure geometry of `crop_box_image`: the rectangle of box
`(box_r, box_c)` before padding and clamping.  The block dimensions
`(bw, bh)` come from `get_block_dims`, which lives outside this repository
and is passed here as an argument (the spec's invariant is
`bw * bh = size`). -/
def crop_box_rect (bw bh boxR boxC margin cellSize : Int) :
    Int × Int × Int × Int :=
  let br0 := boxR - 1
  let bc0 := boxC - 1
  let x0 := margin + (bc0 * bw) * cellSize
  let y0 := margin + (br0 * bh) * cellSize
  (x0, y0, x0 + bw * cellSize, y0 + bh * cellSize)

/-- Pure geometry of `crop_cell_image`: the rectangle of cell `(r, c)`
before padding and clamping. -/
def crop_cell_rect (r c margin cellSize : Int) : Int × Int × Int × Int :=
  let rr0 := r - 1
  let cc0 := c - 1
  let x0 := margin + cc0 * cellSize
  let y0 := margin + rr0 * cellSize
  (x0, y0, x0 + cellSize, y0 + cellSize)

/-- The fixed padding expansion (`pad = 6`) and clamping to the image bounds
applied by both crop functions before the actual crop. -/
def padClampRect (rect : Int × Int × Int × Int) (width height : Int) :
    Int × Int × Int × Int :=
  (max 0 (rect.1 - 6), max 0 (rect.2.1 - 6),
    min width (rect.2.2.1 + 6), min height (rect.2.2.2 + 6))

/-- One-pass embedding of `re.finditer` for the pattern of
`parse_preloaded_puzzles` that matches `\x7b[^\x7d]+\x7d`: a brace opens an
accumulator, any non-closing-brace character extends it, a closing brace
emits the fragment when the body is nonempty (an empty body is no match and
scanning resumes after the closing brace). -/
def fragsGo : Str → Option Str → List Str
  | [], _ => []
  | c :: rest, none =>
    if c = braceL then fragsGo rest (some []) else fragsGo rest none
  | c :: rest, some acc =>
    if c = braceR then
      if acc = [] then fragsGo rest none
      else (braceL :: (acc.reverse ++ [braceR])) :: fragsGo rest none
    else fragsGo rest (some (c :: acc))

/-- All non-nested object fragments found in the blob. -/
def objectFragments (blob : Str) : List Str := fragsGo blob none

/-- The keyword rewrites of `parse_preloaded_puzzles`: the source substitutes
`true`, `false` and `null` by themselves, which is the identity. -/
def rewriteKeywords (s : Str) : Str := s

/-- The quote rewrite of `parse_preloaded_puzzles`: every single-quote
character becomes a double-quote character. -/
def rewriteQuotes (s : Str) : Str :=
  s.map (fun c => if c = quoteS then quoteD else c)

/-- A parsed strict value as observed by `parse_preloaded_puzzles`: a
mapping with keys and values of an opaque value type `α`, or any other
value. -/
inductive PyVal (α : Type) where
  | dict (kvs : List (Str × α))
  | other
deriving DecidableEq, Repr

/-- The per-fragment keep policy of `parse_preloaded_puzzles`: parse the
rewritten fragment with the strict parser (`json.loads`, an external
collaborator modelled as the oracle `loads`; a parse failure is `none`), and
keep the result only when it is a mapping containing both an `id` and a
`data` key. -/
def keepRecord {α : Type} (loads : Str → Option (PyVal α)) (fragment : Str) :
    Option (List (Str × α)) :=
  match loads (rewriteQuotes (rewriteKeywords fragment)) with
  | some (.dict kvs) =>
    if (kvs.any (fun kv => kv.1 == ("id".toList)))
        && (kvs.any (fun kv => kv.1 == ("data".toList))) then some kvs
    else none
  | _ => none

/-- The fragment loop of `parse_preloaded_puzzles` over the array-interior
blob: every fragment that parses to a mapping with `id` and `data` is kept
in order, every other fragment is skipped silently. -/
def parse_preloaded_fragments {α : Type} (loads : Str → Option (PyVal α))
    (blob : Str) : List (List (Str × α)) :=
  (objectFragments blob).filterMap (keepRecord loads)

/-- Interleaving of gap text around fragments (`gaps` has one more element
than the fragment list). -/
def interleave : List Str → List Str → Str
  | [g], [] => g
  | g :: gs, f :: fs => g ++ f ++ interleave gs fs
  | _, _ => []

/-- The text of a regex match with body `body`: an opening brace, the body,
a closing brace. -/
def mkFrag (body : Str) : Str := braceL :: (body ++ [braceR])

/-- The error of the multi-puzzle fetch loop of `cmd_get`
(`InsufficientUniquePuzzles`): the number of unique new puzzles obtained and
the number of batch fetches performed. -/
inductive GetErr where
  | insufficient (obtained : Nat) (attempts : Nat)
deriving DecidableEq, Repr

/-- Set-insertion of the chosen ids into `seen_ids`. -/
def addSeen (seen : List Str) (pids : List Str) : List Str :=
  pids.foldl (fun s pid => if pid ∈ s then s else s ++ [pid]) seen

/-- The fetch-until-satisfied loop of `cmd_get` for `count > 1`.  `fetch`
models `fetch_puzzles(preset.url)` at each attempt and `shuffle` models the
unseeded `random.shuffle` at each attempt (constrained to a permutation by
hypothesis where needed); `fuel` is the remaining attempt budget and
`attempts` counts the fetches already performed.  Note that `fresh` is
computed against `seen_ids` once per batch, before any entry of the batch is
marked seen. -/
def pickManyGo (count : Nat) (fetch : Nat → List PuzzleRec)
    (shuffle : Nat → List PuzzleRec → List PuzzleRec) (used : List Str) :
    Nat → Nat → List PuzzleRec → List Str → Except GetErr (List PuzzleRec)
  | 0, attempts, selected, _ =>
    if selected.length < count then .error (.insufficient selected.length attempts)
    else .ok selected
  | fuel + 1, attempts, selected, seen =>
    if selected.length < count then
      let fresh := (fetch attempts).filter
        (fun r => decide (r.pid ∉ used) && decide (r.pid ∉ seen))
      if fresh = [] then
        pickManyGo count fetch shuffle used fuel (attempts + 1) selected seen
      else
        let chosen := (shuffle attempts fresh).take (count - selected.length)
        pickManyGo count fetch shuffle used fuel (attempts + 1)
          (selected ++ chosen) (addSeen seen (chosen.map PuzzleRec.pid))
    else .ok selected

/-- The `count > 1` path of `cmd_get`: derive the previously used ids from
the corpus and run the fetch loop with the attempt budget
`max(5, count * 4)`. -/
def cmd_get_multi (count : Nat) (fetch : Nat → List PuzzleRec)
    (shuffle : Nat → List PuzzleRec → List PuzzleRec) (st : CorpusSt) :
    Except GetErr (List PuzzleRec) :=
  pickManyGo count fetch shuffle (_previously_used_puzzle_ids st)
    (max 5 (count * 4)) 0 [] []

-- THEOREMS

theorem jsScan_string_opaque {q : Char} {v : Str} (hv : StringOpaque q v) :
    ∀ (depth : Int) (rest : Str),
      jsScan depth true q false (v ++ rest) =
        (jsScan depth true q false rest).map (v ++ ·) := by
  induction hv with
  | nil =>
    intro depth rest
    cases h : jsScan depth true q false rest <;> simp [h]
  | esc c rest' hrec ih =>
    intro depth rest
    simp only [List.cons_append, jsScan, if_true, List.append_eq]
    rw [ih depth rest]
    cases h : jsScan depth true q false rest <;> simp [h]
  | plain c rest' hc hq hrec ih =>
    intro depth rest
    simp only [List.cons_append, jsScan, if_true, List.append_eq]
    rw [if_neg hc, if_neg hq, ih depth rest]
    cases h : jsScan depth true q false rest <;> simp [h]

theorem jsScan_inert {w : Str} (hw : ∀ c ∈ w, InertChar c)
    (depth : Int) (q : Char) (esc : Bool) (rest : Str) :
    jsScan depth false q esc (w ++ rest) =
      (jsScan depth false q esc rest).map (w ++ ·) := by
  induction w with
  | nil =>
    cases h : jsScan depth false q esc rest <;> simp [h]
  | cons c w' ih =>
    obtain ⟨h1, h2, h3, h4⟩ := hw c (List.mem_cons_self c w')
    have ih' := ih (fun d hd => hw d (List.mem_cons_of_mem c hd))
    simp only [List.cons_append, jsScan, if_false, List.append_eq]
    rw [if_neg (by simp [h1, h2]), if_neg h3, if_neg h4, ih']
    cases h : jsScan depth false q esc rest <;> simp [h, h1, h2]

theorem findSub_of_isPrefix {hay pat : Str} (h : pat <+: hay) :
    findSub hay pat = some 0 := by
  cases hay with
  | nil => simp [findSub, h]
  | cons c rest => simp [findSub, h]


theorem jsScan_open_bracket (depth : Int) (q : Char) (esc : Bool) (rest : Str) :
    jsScan depth false q esc ('[' :: rest) =
      (jsScan (depth + 1) false q esc rest).map ('[' :: ·) := by
  simp only [jsScan]
  rw [if_neg (show ¬('[' = quoteS ∨ '[' = quoteD) by decide)]
  simp

theorem jsScan_close_at_one (q : Char) (esc : Bool) (rest : Str) :
    jsScan 1 false q esc (']' :: rest) = some [] := by
  simp only [jsScan]
  rw [if_neg (show ¬(']' = quoteS ∨ ']' = quoteD) by decide)]
  simp

theorem jsScan_open_quote {q : Char} (hq : q = quoteS ∨ q = quoteD)
    (depth : Int) (q0 : Char) (esc : Bool) (rest : Str) :
    jsScan depth false q0 esc (q :: rest) =
      (jsScan depth true q esc rest).map (q :: ·) := by
  simp only [jsScan]
  rw [if_pos hq]
  simp

theorem jsScan_close_quote {q : Char} (hq' : q ≠ backslashC)
    (depth : Int) (rest : Str) :
    jsScan depth true q false (q :: rest) =
      (jsScan depth false q false rest).map (q :: ·) := by
  simp only [jsScan]
  rw [if_neg hq']
  simp

/-- C3: the bracket scanner of the extractor treats every character of a
quoted string as opaque — including a `]` preceded by an escaped backslash —
and on success the extractor returns exactly the text strictly between the
opening bracket and the closing bracket at which the depth returns to 0. -/
theorem extract_ignores_brackets_in_strings
    (varName pre v post rest : Str) (q : Char)
    (hq : q = quoteS ∨ q = quoteD)
    (hpre : ∀ c ∈ pre, InertChar c) (hpost : ∀ c ∈ post, InertChar c)
    (hv : StringOpaque q v) :
    _extract_js_array_contents
        (mkMarker varName ++ (pre ++ ((q :: v) ++ ((q :: post) ++ (']' :: rest))))) varName =
      .ok (pre ++ ((q :: v) ++ (q :: post))) := by
  have hq' : q ≠ backslashC := by rcases hq with h | h <;> subst h <;> decide
  have hfind : findSub
      (mkMarker varName ++ (pre ++ ((q :: v) ++ ((q :: post) ++ (']' :: rest)))))
      (mkMarker varName) = some 0 :=
    findSub_of_isPrefix (List.prefix_append _ _)
  have hlen : (mkMarker varName).length - 1 = (markerFront varName).length := by
    simp [mkMarker]
  have hdrop : (mkMarker varName ++
        (pre ++ ((q :: v) ++ ((q :: post) ++ (']' :: rest))))).drop
      (0 + (mkMarker varName).length - 1) =
      '[' :: (pre ++ ((q :: v) ++ ((q :: post) ++ (']' :: rest)))) := by
    rw [Nat.zero_add, hlen, mkMarker, List.append_assoc]
    have hdl := List.drop_left (markerFront varName)
      (['['] ++ (pre ++ ((q :: v) ++ ((q :: post) ++ (']' :: rest)))))
    simp only [List.singleton_append] at hdl
    exact hdl
  have hscan : jsScan 0 false ' ' false
      ('[' :: (pre ++ ((q :: v) ++ ((q :: post) ++ (']' :: rest))))) =
      some ('[' :: (pre ++ (q :: (v ++ (q :: post))))) := by
    simp only [List.cons_append]
    rw [jsScan_open_bracket]
    simp only [zero_add]
    rw [jsScan_inert hpre, jsScan_open_quote hq, jsScan_string_opaque hv,
        jsScan_close_quote hq', jsScan_inert hpost, jsScan_close_at_one]
    simp
  simp only [_extract_js_array_contents, hfind, hdrop, hscan]
  simp [List.append_assoc]

theorem extract_ignores_brackets_in_strings_witness :
    _extract_js_array_contents
        (mkMarker ("preloadedPuzzles".toList) ++
          ([] ++ ((quoteD :: ['a', backslashC, backslashC, ']', 'b']) ++
            ((quoteD :: []) ++ (']' :: []))))) ("preloadedPuzzles".toList) =
      .ok ([] ++ ((quoteD :: ['a', backslashC, backslashC, ']', 'b']) ++ (quoteD :: []))) :=
  extract_ignores_brackets_in_strings _ _ _ _ _ quoteD (Or.inr rfl)
    (fun c hc => absurd hc (List.not_mem_nil c))
    (fun c hc => absurd hc (List.not_mem_nil c))
    (StringOpaque.plain 'a' _ (by decide) (by decide)
      (StringOpaque.esc backslashC _
        (StringOpaque.plain ']' _ (by decide) (by decide)
          (StringOpaque.plain 'b' _ (by decide) (by decide) StringOpaque.nil))))

theorem findSub_none_iff (hay pat : Str) : findSub hay pat = none ↔ ¬ pat <:+: hay := by
  induction hay with
  | nil =>
    by_cases h : pat <+: ([] : Str)
    · simp [findSub, h, List.infix_nil, List.prefix_nil.mp h]
    · have hne : pat ≠ [] := fun he => h (he ▸ List.prefix_refl _)
      simp [findSub, h, List.infix_nil, hne]
  | cons c rest ih =>
    by_cases h : pat <+: (c :: rest)
    · simp [findSub, h, h.isInfix]
    · simp [findSub, h, ih, List.infix_cons_iff]

/-- C8 (amended: the assignment marker is `const <name> = [`): the extractor
fails with `NotFound` exactly when the marker is absent from the text; when
the marker is present, it fails with `MalformedInput` exactly when the scan
reaches the end of the text before the depth returns to 0, and in every
other case returns the array-interior substring produced by the scan. -/
theorem extract_error_classification (html varName : Str) :
    (_extract_js_array_contents html varName = .error .notFound ↔
      ¬ (mkMarker varName) <:+: html)
    ∧ (∀ markerPos, findSub html (mkMarker varName) = some markerPos →
        ((_extract_js_array_contents html varName = .error .malformed ↔
            jsScan 0 false ' ' false
              (html.drop (markerPos + (mkMarker varName).length - 1)) = none)
          ∧ ∀ s, jsScan 0 false ' ' false
              (html.drop (markerPos + (mkMarker varName).length - 1)) = some s →
            _extract_js_array_contents html varName = .ok (s.drop 1))) := by
  constructor
  · rw [← findSub_none_iff]
    unfold _extract_js_array_contents
    cases h : findSub html (mkMarker varName) with
    | none => simp
    | some pos =>
      simp only
      cases hs : jsScan 0 false ' ' false (html.drop (pos + (mkMarker varName).length - 1)) with
      | none => simp [hs]
      | some s => simp [hs]
  · intro pos hpos
    unfold _extract_js_array_contents
    rw [hpos]
    constructor
    · cases hs : jsScan 0 false ' ' false (html.drop (pos + (mkMarker varName).length - 1)) with
      | none => simp [hs]
      | some s => simp [hs]
    · intro s hs
      simp [hs]

theorem extract_error_classification_witness :
    _extract_js_array_contents ("const x = [[1]".toList) ("x".toList) = .error .malformed
    ∧ _extract_js_array_contents ("const x = [12]".toList) ("x".toList) = .ok ("12".toList) :=
  ⟨((extract_error_classification ("const x = [[1]".toList) ("x".toList)).2 0
      (by decide)).1.mpr (by decide),
    ((extract_error_classification ("const x = [12]".toList) ("x".toList)).2 0
      (by decide)).2 ("[12".toList) (by decide)⟩

/-- C8 counterexample: the text `x = [1]` contains the claim's marker
`x = [` for the variable `x`, yet the extractor reports `NotFound`, because
the source searches for `const x = [`. -/
theorem extract_notfound_despite_bare_marker :
    (("x = [".toList) <:+: ("x = [1]".toList))
    ∧ _extract_js_array_contents ("x = [1]".toList) ("x".toList) = .error .notFound :=
  ⟨by decide, by decide⟩

theorem isHexDashChar_not_ws {c : Char} (h : isHexDashChar c) :
    c.isWhitespace = false := by
  have hnot : ¬ (c = ' ' ∨ c = '\t' ∨ c = '\r' ∨ c = '\n') := by
    intro hw
    rcases hw with h1 | h1 | h1 | h1 <;> subst h1 <;>
      rcases h with ⟨ha, hb⟩ | ⟨ha, hb⟩ | ⟨ha, hb⟩ | ha <;>
        exact absurd ha (by decide)
  push_neg at hnot
  simp [Char.isWhitespace, hnot.1, hnot.2.1, hnot.2.2.1, hnot.2.2.2]

theorem dropWhile_eq_self_of_none {p : Char → Bool} {l : Str}
    (h : ∀ c ∈ l, p c = false) : l.dropWhile p = l := by
  cases l with
  | nil => rfl
  | cons a t =>
    rw [List.dropWhile_cons_of_neg]
    simp [h a (List.mem_cons_self a t)]

theorem stripWs_eq_self {s : Str} (h : ∀ c ∈ s, isHexDashChar c) :
    stripWs s = s := by
  unfold stripWs
  rw [dropWhile_eq_self_of_none (fun c hc => isHexDashChar_not_ws (h c hc)),
    dropWhile_eq_self_of_none
      (fun c hc => isHexDashChar_not_ws (h c (List.mem_reverse.mp hc))),
    List.reverse_reverse]

theorem normalize_valid {s : Str} (h : ValidId s) :
    _normalize_id_fragment s = .ok s := by
  obtain ⟨h1, h2, h3⟩ := h
  unfold _normalize_id_fragment
  simp only [stripWs_eq_self h3]
  rw [if_neg h1, if_pos ⟨h2, h3⟩]

theorem filenameMatchesShort_of_filename (stamp presetKey : Str) (size : Nat)
    (puzzleId : Str) :
    filenameMatchesShort (puzzle_json_filename stamp presetKey size puzzleId)
      (lowerStr (takeShort puzzleId)) = true := by
  unfold filenameMatchesShort puzzle_json_filename
  rw [decide_eq_true_eq]
  unfold lowerStr
  simp only [List.map_append]
  have hu : (("_".toList).map Char.toLower) = ("_".toList) := by decide
  have hj : ((".json".toList).map Char.toLower) = (".json".toList) := by decide
  rw [hu, hj]
  have hshape :
      (stamp.map Char.toLower) ++ ("_".toList) ++ (presetKey.map Char.toLower) ++
          ("_".toList) ++ ((natStr size).map Char.toLower) ++ (("x".toList).map Char.toLower) ++
          ((natStr size).map Char.toLower) ++ ("_".toList) ++
          ((takeShort puzzleId).map Char.toLower) ++ (".json".toList) =
        ((stamp.map Char.toLower) ++ ("_".toList) ++ (presetKey.map Char.toLower) ++
          ("_".toList) ++ ((natStr size).map Char.toLower) ++ (("x".toList).map Char.toLower) ++
          ((natStr size).map Char.toLower)) ++
        (('_' :: ((takeShort puzzleId).map Char.toLower)) ++ (".json".toList)) := by
    simp [List.append_assoc]
  rw [hshape]
  exact List.suffix_append _ _

theorem filenameMatchesShort_writeFilename (now : Str) (d : Doc) :
    filenameMatchesShort (writeFilename now d) (lowerStr (takeShort d.pid)) = true :=
  filenameMatchesShort_of_filename (writeStamp now d) d.presetKey d.size d.pid

/-- C1: after a document with a valid identifier is written to the corpus,
resolving by its full id returns exactly the written document, for every
prior corpus state, in particular when other stored documents share the same
short-id prefix: the written entry is the most recent filename-suffix
candidate, and the fast path accepts it after the case-insensitive
`picked.id` comparison (a short-only identifier is likewise returned as the
most recent candidate). -/
theorem resolve_after_write_roundtrip (st : CorpusSt) (now : Str) (d : Doc)
    (hv : ValidId d.pid) :
    find_puzzle_json_by_id (write_puzzle_json st now d) d.pid =
      .ok (writeFilename now d, d) := by
  have hnorm := normalize_valid hv
  have hmatch := filenameMatchesShort_writeFilename now d
  simp only [find_puzzle_json_by_id, hnorm, write_puzzle_json, List.filter_append]
  rw [show List.filter
        (fun e => filenameMatchesShort e.1 (lowerStr (takeShort d.pid)))
        [(writeFilename now d, d)] = [(writeFilename now d, d)] by
      simp [List.filter, hmatch]]
  rw [List.getLast?_concat]
  by_cases hc : (d.pid).contains '-' = true
  · simp [hc, List.reverse_append, List.find?]
  · simp [hc]

theorem resolve_after_write_roundtrip_witness :
    ValidId ("abc-0001".toList)
    ∧ find_puzzle_json_by_id
        (write_puzzle_json [(("t0_easy9_9x9_abc.json".toList),
            ⟨("t0".toList), ("easy9".toList), 9, ("abc-9999".toList)⟩)] ("t1".toList)
          ⟨("t1".toList), ("easy9".toList), 9, ("abc-0001".toList)⟩)
        ("abc-0001".toList) =
      .ok (writeFilename ("t1".toList)
            ⟨("t1".toList), ("easy9".toList), 9, ("abc-0001".toList)⟩,
          ⟨("t1".toList), ("easy9".toList), 9, ("abc-0001".toList)⟩) :=
  ⟨by decide, resolve_after_write_roundtrip _ _ _ (by decide)⟩

/-- C4 counterexample: two distinct documents carrying the same
`created_utc` stamp, preset and size whose distinct full ids share the short
segment receive the same filename — the claim that filenames never collide
for distinct same-second puzzles is false. -/
theorem filename_collision_same_second :
    ((⟨("t".toList), ("easy9".toList), 9, ("abc-1".toList)⟩ : Doc) ≠
        ⟨("t".toList), ("easy9".toList), 9, ("abc-2".toList)⟩)
    ∧ writeFilename ("t".toList) ⟨("t".toList), ("easy9".toList), 9, ("abc-1".toList)⟩ =
        writeFilename ("t".toList) ⟨("t".toList), ("easy9".toList), 9, ("abc-2".toList)⟩ :=
  ⟨by decide, by decide⟩

/-- C4 (amended): the filename is a deterministic pure function of
`(created_utc, preset.key, size, short-id)`, and for two documents with the
same stamp, preset key and size the filenames coincide exactly when the
short ids (first hyphen-delimited segments) coincide; distinct puzzles
created in the same second therefore collide precisely when they share a
short id — the accepted same-second limitation. -/
theorem filename_collision_iff_same_short (stamp presetKey : Str) (size : Nat)
    (pid1 pid2 : Str) :
    puzzle_json_filename stamp presetKey size pid1 =
        puzzle_json_filename stamp presetKey size pid2
      ↔ takeShort pid1 = takeShort pid2 := by
  constructor
  · intro h
    unfold puzzle_json_filename at h
    simp only [List.append_assoc] at h
    have h1 := List.append_cancel_left h
    have h2 := List.append_cancel_left h1
    have h3 := List.append_cancel_left h2
    have h4 := List.append_cancel_left h3
    have h5 := List.append_cancel_left h4
    have h6 := List.append_cancel_left h5
    have h7 := List.append_cancel_left h6
    have h8 := List.append_cancel_left h7
    exact List.append_cancel_right h8
  · intro h
    unfold puzzle_json_filename
    rw [h]

/-- C2 counterexample: with three stored documents whose three distinct full
ids all share the short segment `abc`, resolving by the short id `abc`
returns the most recent matching document; no `AmbiguousIdentifier` failure
occurs at the corpus-resolution layer. -/
theorem resolve_short_id_not_ambiguous :
    find_puzzle_json_by_id
        (write_puzzle_json
          (write_puzzle_json
            (write_puzzle_json [] ("t1".toList)
              ⟨("t1".toList), ("easy9".toList), 9, ("abc-001".toList)⟩)
            ("t2".toList) ⟨("t2".toList), ("easy9".toList), 9, ("abc-002".toList)⟩)
          ("t3".toList) ⟨("t3".toList), ("easy9".toList), 9, ("abc-003".toList)⟩)
        ("abc".toList) =
      .ok (writeFilename ("t3".toList)
            ⟨("t3".toList), ("easy9".toList), 9, ("abc-003".toList)⟩,
          ⟨("t3".toList), ("easy9".toList), 9, ("abc-003".toList)⟩) := by
  decide

/-- C10: a single pick over an empty candidate batch always fails with the
`No puzzles found` error before any selector logic, whatever id fragment,
index, seed, corpus or randomness oracle are supplied; it never returns a
candidate. -/
theorem pick_empty_always_fails (index : Option Int) (puzzleId : Option Str)
    (seed : Option Str) (st : CorpusSt) (randrange : Option Str → Nat → Nat) :
    pick_puzzle [] index puzzleId seed st randrange = .error .noPuzzles := by
  unfold pick_puzzle
  rw [if_pos rfl]

/-- C7: the random single pick draws by indexing the pool with the seeded
generator, where the pool is restricted to candidates whose id is absent
from the used-id set derived from the corpus and falls back to the whole
batch when that restriction is empty; it is deterministic in that two
invocations with the same batch, the same corpus and generators agreeing on
the given seed return the same candidate. -/
theorem pick_random_pool_and_determinism (puzzles : List PuzzleRec)
    (st : CorpusSt) (seed : Option Str) (R1 R2 : Option Str → Nat → Nat)
    (hne : puzzles ≠ [])
    (hR : ∀ n, 0 < n → R1 seed n < n)
    (hagree : R1 seed = R2 seed) :
    (pick_puzzle puzzles none none seed st R1 =
        pick_puzzle puzzles none none seed st R2)
    ∧ (∃ ip, (randomPool puzzles st).get?
          (R1 seed (randomPool puzzles st).length) = some ip
        ∧ pick_puzzle puzzles none none seed st R1 = .ok (ip.2, ip.1)
        ∧ ip ∈ randomPool puzzles st
        ∧ (freshPool puzzles st ≠ [] →
            ip.2.pid ∉ _previously_used_puzzle_ids st)
        ∧ (freshPool puzzles st = [] → ip ∈ puzzles.enum)) := by
  have hpoolne : randomPool puzzles st ≠ [] := by
    unfold randomPool
    by_cases hf : freshPool puzzles st ≠ []
    · rw [if_pos hf]; exact hf
    · rw [if_neg hf]
      intro he
      apply hne
      have hl := congrArg List.length he
      simp only [List.enum_length, List.length_nil] at hl
      exact List.length_eq_zero.mp hl
  have hlen : 0 < (randomPool puzzles st).length := List.length_pos.mpr hpoolne
  have hlt := hR _ hlen
  obtain ⟨ip, hip⟩ : ∃ ip, (randomPool puzzles st).get?
      (R1 seed (randomPool puzzles st).length) = some ip :=
    ⟨_, List.get?_eq_get hlt⟩
  have hmem : ip ∈ randomPool puzzles st := List.get?_mem hip
  have hpick1 : pick_puzzle puzzles none none seed st R1 = .ok (ip.2, ip.1) := by
    unfold pick_puzzle
    rw [if_neg hne]
    simp only [hip]
  refine ⟨?_, ip, hip, hpick1, hmem, ?_, ?_⟩
  · unfold pick_puzzle
    rw [hagree]
  · intro hf
    have hmemf : ip ∈ freshPool puzzles st := by
      rw [randomPool, if_pos hf] at hmem
      exact hmem
    unfold freshPool at hmemf
    have hp := List.of_mem_filter hmemf
    exact of_decide_eq_true hp
  · intro hf0
    rw [randomPool, if_neg (fun h => h hf0)] at hmem
    exact hmem

theorem pick_random_pool_and_determinism_witness :
    ∃ ip, (randomPool [⟨("aa".toList)⟩, ⟨("bb".toList)⟩]
          [(("n.json".toList), ⟨("t1".toList), ("easy9".toList), 9, ("aa".toList)⟩)]).get?
        ((fun (_ : Option Str) (_ : Nat) => 0) (some ("7".toList))
          (randomPool [⟨("aa".toList)⟩, ⟨("bb".toList)⟩]
            [(("n.json".toList), ⟨("t1".toList), ("easy9".toList), 9, ("aa".toList)⟩)]).length)
        = some ip
      ∧ pick_puzzle [⟨("aa".toList)⟩, ⟨("bb".toList)⟩] none none (some ("7".toList))
          [(("n.json".toList), ⟨("t1".toList), ("easy9".toList), 9, ("aa".toList)⟩)]
          (fun _ _ => 0) = .ok (ip.2, ip.1)
      ∧ ip ∈ randomPool [⟨("aa".toList)⟩, ⟨("bb".toList)⟩]
          [(("n.json".toList), ⟨("t1".toList), ("easy9".toList), 9, ("aa".toList)⟩)]
      ∧ (freshPool [⟨("aa".toList)⟩, ⟨("bb".toList)⟩]
            [(("n.json".toList), ⟨("t1".toList), ("easy9".toList), 9, ("aa".toList)⟩)] ≠ [] →
          ip.2.pid ∉ _previously_used_puzzle_ids
            [(("n.json".toList), ⟨("t1".toList), ("easy9".toList), 9, ("aa".toList)⟩)])
      ∧ (freshPool [⟨("aa".toList)⟩, ⟨("bb".toList)⟩]
            [(("n.json".toList), ⟨("t1".toList), ("easy9".toList), 9, ("aa".toList)⟩)] = [] →
          ip ∈ ([⟨("aa".toList)⟩, ⟨("bb".toList)⟩] : List PuzzleRec).enum) :=
  (pick_random_pool_and_determinism [⟨("aa".toList)⟩, ⟨("bb".toList)⟩]
    [(("n.json".toList), ⟨("t1".toList), ("easy9".toList), 9, ("aa".toList)⟩)]
    (some ("7".toList)) (fun _ _ => 0) (fun _ _ => 0) (by decide)
    (fun n h => h) rfl).2

/-- C2 (amended): corpus resolution by a short id never reports ambiguity —
whenever the filename filter finds matches it returns the most recent one;
the `AmbiguousIdentifier` failure that lists up to 5 colliding ids exists in
batch picking: an id fragment matching exactly 3 candidate ids fails there,
listing all 3 with no truncation. -/
theorem short_id_resolution_vs_pick_ambiguity :
    (∀ (st : CorpusSt) (ident norm : Str) (m : Str × Doc),
        _normalize_id_fragment ident = .ok norm →
        norm.contains '-' = false →
        (st.filter (fun e => filenameMatchesShort e.1 (lowerStr (takeShort norm)))).getLast?
          = some m →
        find_puzzle_json_by_id st ident = .ok m)
    ∧ (∀ (puzzles : List PuzzleRec) (frag norm : Str) (seed : Option Str)
        (st : CorpusSt) (R : Option Str → Nat → Nat),
        puzzles ≠ [] →
        _normalize_id_fragment frag = .ok norm →
        (fragMatches puzzles norm).length = 3 →
        pick_puzzle puzzles none (some frag) seed st R =
          .error (.ambiguous 3
            ((fragMatches puzzles norm).map (fun ip => ip.2.pid)) 0)) := by
  constructor
  · intro st ident norm m hnorm hnoDash hlast
    unfold find_puzzle_json_by_id
    rw [hnorm]
    have hnoDash2 : ¬ ('-' ∈ norm) := by simpa using hnoDash
    simp [hlast, hnoDash2]
  · intro puzzles frag norm seed st R hne hnorm hms3
    unfold pick_puzzle
    rw [if_neg hne]
    simp only [hnorm]
    have hmsne : ¬ (fragMatches puzzles norm = []) := by
      intro h
      rw [h] at hms3
      simp at hms3
    rw [if_neg hmsne, if_pos (by rw [hms3]; norm_num)]
    rw [hms3, List.take_of_length_le (by rw [hms3]; norm_num)]
    norm_num

theorem short_id_resolution_vs_pick_ambiguity_witness :
    find_puzzle_json_by_id
        [(("t1_easy9_9x9_abc.json".toList),
            ⟨("t1".toList), ("easy9".toList), 9, ("abc-001".toList)⟩),
          (("t2_easy9_9x9_abc.json".toList),
            ⟨("t2".toList), ("easy9".toList), 9, ("abc-002".toList)⟩)]
        ("abc".toList) =
      .ok (("t2_easy9_9x9_abc.json".toList),
        ⟨("t2".toList), ("easy9".toList), 9, ("abc-002".toList)⟩)
    ∧ pick_puzzle [⟨("ab1".toList)⟩, ⟨("ab2".toList)⟩, ⟨("ab3".toList)⟩] none
        (some ("ab".toList)) none [] (fun _ _ => 0) =
      .error (.ambiguous 3 [("ab1".toList), ("ab2".toList), ("ab3".toList)] 0) :=
  ⟨short_id_resolution_vs_pick_ambiguity.1
      [(("t1_easy9_9x9_abc.json".toList),
          ⟨("t1".toList), ("easy9".toList), 9, ("abc-001".toList)⟩),
        (("t2_easy9_9x9_abc.json".toList),
          ⟨("t2".toList), ("easy9".toList), 9, ("abc-002".toList)⟩)]
      ("abc".toList) ("abc".toList) _ (by decide) (by decide) (by decide),
    (short_id_resolution_vs_pick_ambiguity.2
      [⟨("ab1".toList)⟩, ⟨("ab2".toList)⟩, ⟨("ab3".toList)⟩]
      ("ab".toList) ("ab".toList) none [] (fun _ _ => 0)
      (by decide) (by decide) (by decide)).trans (by decide)⟩

/-- C9: crop geometry is pure arithmetic with
`x0 = margin + (box_col - 1) * block_width * cell_px` (and `block_height`
for y); a box spans one full block and a cell exactly one cell; for
`size = 9`, block `(3,3)`, `cell_px = 60`, `margin = 40` the box at row 2,
col 2 has `x0 = y0 = 220` and the cell `(5,5)` has `x0 = y0 = 280`, before
the fixed padding expansion and clamping to the image bounds. -/
theorem crop_geometry_formulas :
    (∀ bw bh boxR boxC margin cellSize : Int,
        crop_box_rect bw bh boxR boxC margin cellSize =
          (margin + (boxC - 1) * bw * cellSize,
            margin + (boxR - 1) * bh * cellSize,
            margin + (boxC - 1) * bw * cellSize + bw * cellSize,
            margin + (boxR - 1) * bh * cellSize + bh * cellSize))
    ∧ (∀ r c margin cellSize : Int,
        crop_cell_rect r c margin cellSize =
          (margin + (c - 1) * cellSize, margin + (r - 1) * cellSize,
            margin + (c - 1) * cellSize + cellSize,
            margin + (r - 1) * cellSize + cellSize))
    ∧ crop_box_rect 3 3 2 2 40 60 = (220, 220, 400, 400)
    ∧ crop_cell_rect 5 5 40 60 = (280, 280, 340, 340)
    ∧ padClampRect (crop_box_rect 3 3 2 2 40 60) 620 620 = (214, 214, 406, 406)
    ∧ padClampRect (crop_cell_rect 5 5 40 60) 620 620 = (274, 274, 346, 346) :=
  ⟨fun _ _ _ _ _ _ => rfl, fun _ _ _ _ => rfl,
    by decide, by decide, by decide, by decide⟩

theorem fragsGo_gap {g : Str} (hg : ∀ c ∈ g, c ≠ braceL) (rest : Str) :
    fragsGo (g ++ rest) none = fragsGo rest none := by
  induction g with
  | nil => rfl
  | cons c t ih =>
    rw [List.cons_append]
    simp only [fragsGo, if_neg (hg c (List.mem_cons_self c t))]
    exact ih (fun d hd => hg d (List.mem_cons_of_mem c hd))

theorem fragsGo_body {b : Str} (hb : ∀ c ∈ b, c ≠ braceR) :
    ∀ (acc rest : Str),
      fragsGo (b ++ (braceR :: rest)) (some acc) =
        (if b.reverse ++ acc = [] then fragsGo rest none
          else (braceL :: ((b.reverse ++ acc).reverse ++ [braceR])) ::
            fragsGo rest none) := by
  induction b with
  | nil =>
    intro acc rest
    simp only [List.nil_append, List.reverse_nil, fragsGo]
    rw [if_pos trivial]
  | cons c t ih =>
    intro acc rest
    have hc := hb c (List.mem_cons_self c t)
    rw [List.cons_append]
    simp only [fragsGo, if_neg hc]
    rw [ih (fun d hd => hb d (List.mem_cons_of_mem c hd)) (c :: acc) rest]
    simp [List.append_assoc]

theorem fragsGo_frag {b : Str} (hbne : b ≠ []) (hb : ∀ c ∈ b, c ≠ braceR)
    (rest : Str) :
    fragsGo (mkFrag b ++ rest) none = mkFrag b :: fragsGo rest none := by
  unfold mkFrag
  rw [List.cons_append]
  simp only [fragsGo, if_pos rfl]
  have hshape : (b ++ [braceR]) ++ rest = b ++ (braceR :: rest) := by
    simp [List.append_assoc]
  rw [hshape, fragsGo_body hb [] rest]
  have hrevne : ¬ (b.reverse ++ ([] : Str) = []) := by
    intro h
    apply hbne
    simpa using h
  rw [if_neg hrevne]
  simp

theorem objectFragments_interleave :
    ∀ (bodies gaps : List Str),
      gaps.length = bodies.length + 1 →
      (∀ g ∈ gaps, ∀ c ∈ g, c ≠ braceL) →
      (∀ b ∈ bodies, b ≠ [] ∧ ∀ c ∈ b, c ≠ braceR) →
      objectFragments (interleave gaps (bodies.map mkFrag)) = bodies.map mkFrag := by
  intro bodies
  induction bodies with
  | nil =>
    intro gaps hlen hg _
    match gaps with
    | [g] =>
      unfold objectFragments
      show fragsGo (interleave [g] []) none = []
      rw [show interleave [g] [] = g from rfl]
      have hgap := fragsGo_gap (hg g (List.mem_cons_self g [])) []
      simpa using hgap
  | cons b bs ih =>
    intro gaps hlen hg hb
    match gaps with
    | g :: gs =>
      have hlen' : gs.length = bs.length + 1 := by
        simpa using hlen
      have hg' : ∀ x ∈ gs, ∀ c ∈ x, c ≠ braceL :=
        fun x hx => hg x (List.mem_cons_of_mem g hx)
      have hb' : ∀ x ∈ bs, x ≠ [] ∧ ∀ c ∈ x, c ≠ braceR :=
        fun x hx => hb x (List.mem_cons_of_mem b hx)
      obtain ⟨hbne, hbr⟩ := hb b (List.mem_cons_self b bs)
      unfold objectFragments
      show fragsGo (interleave (g :: gs) ((b :: bs).map mkFrag)) none = _
      rw [show interleave (g :: gs) ((b :: bs).map mkFrag) =
            g ++ (mkFrag b ++ interleave gs (bs.map mkFrag)) by
          simp [interleave, List.append_assoc]]
      rw [fragsGo_gap (hg g (List.mem_cons_self g gs)),
        fragsGo_frag hbne hbr]
      have := ih gs hlen' hg' hb'
      unfold objectFragments at this
      rw [this]
      rfl

/-- C5: over an array-interior blob made of regex-shaped object fragments
interleaved with brace-free gap text, the normalizer loop returns exactly
the fragments that the strict parser accepts as mappings containing both an
`id` and a `data` key, in order; every fragment that fails to parse or
lacks one of the keys is silently dropped, and the loop is a total
function — it never fails on the malformed fragments. -/
theorem normalizer_keeps_exactly_valid {α : Type} (loads : Str → Option (PyVal α))
    (bodies gaps : List Str)
    (hlen : gaps.length = bodies.length + 1)
    (hg : ∀ g ∈ gaps, ∀ c ∈ g, c ≠ braceL)
    (hb : ∀ b ∈ bodies, b ≠ [] ∧ ∀ c ∈ b, c ≠ braceR) :
    parse_preloaded_fragments loads (interleave gaps (bodies.map mkFrag)) =
      (bodies.map mkFrag).filterMap (keepRecord loads) := by
  unfold parse_preloaded_fragments
  rw [objectFragments_interleave bodies gaps hlen hg hb]

theorem normalizer_keeps_exactly_valid_witness :
    parse_preloaded_fragments
        (fun s => if s = mkFrag ("id".toList)
          then some (.dict [(("id".toList), (0 : Nat)), (("data".toList), 1)])
          else none)
        (interleave [[], (",".toList), []]
          ([("id".toList), ("zz".toList)].map mkFrag)) =
      [[(("id".toList), (0 : Nat)), (("data".toList), 1)]] :=
  (normalizer_keeps_exactly_valid
      (fun s => if s = mkFrag ("id".toList)
        then some (.dict [(("id".toList), (0 : Nat)), (("data".toList), 1)])
        else none)
      [("id".toList), ("zz".toList)] [[], (",".toList), []]
      (by decide) (by decide) (by decide)).trans (by decide)

/-- C6 counterexample: an upstream whose every batch is `[A, A, B]` yields
only 2 unique never-before-seen ids across the whole budget, yet
`pick_many(count = 3)` succeeds, selecting the id `A` twice — the fresh
list of a batch is filtered before any of its own entries are marked seen,
so a batch-internal duplicate can fill the count. -/
theorem pick_many_duplicate_batch_succeeds :
    cmd_get_multi 3
        (fun _ => [⟨("aa".toList)⟩, ⟨("aa".toList)⟩, ⟨("bb".toList)⟩])
        (fun _ l => l) [] =
      .ok [⟨("aa".toList)⟩, ⟨("aa".toList)⟩, ⟨("bb".toList)⟩] := by
  decide

theorem addSeen_of_disjoint :
    ∀ (pids seen : List Str), (∀ x ∈ pids, x ∉ seen) → pids.Nodup →
      addSeen seen pids = seen ++ pids := by
  intro pids
  induction pids with
  | nil =>
    intro seen _ _
    simp [addSeen]
  | cons p ps ih =>
    intro seen hdisj hnd
    unfold addSeen
    simp only [List.foldl_cons]
    rw [if_neg (hdisj p (List.mem_cons_self p ps))]
    have ih2 := ih (seen ++ [p])
      (by
        intro x hx hmem
        rcases List.mem_append.mp hmem with h | h
        · exact hdisj x (List.mem_cons_of_mem p hx) h
        · have hxp : x = p := by simpa using h
          exact (List.nodup_cons.mp hnd).1 (hxp ▸ hx))
      (List.nodup_cons.mp hnd).2
    unfold addSeen at ih2
    rw [ih2]
    simp

theorem length_le_two_of_nodup_subset {l : List Str} {A B : Str}
    (hnd : l.Nodup) (hsub : ∀ x ∈ l, x = A ∨ x = B) : l.length ≤ 2 := by
  have hsub2 : l ⊆ [A, B] := by
    intro x hx
    rcases hsub x hx with h | h <;> simp [h]
  have hle := (hnd.subperm hsub2).length_le
  simpa using hle

theorem pickManyGo_two_ids (fetch : Nat → List PuzzleRec)
    (shuffle : Nat → List PuzzleRec → List PuzzleRec) (used : List Str)
    (A B : Str)
    (hnodup : ∀ n, n < 12 → ((fetch n).map PuzzleRec.pid).Nodup)
    (hsub : ∀ n, n < 12 → ∀ r ∈ fetch n, r.pid ∉ used → r.pid = A ∨ r.pid = B)
    (hsh : ∀ n l, List.Perm (shuffle n l) l) :
    ∀ (fuel attempts : Nat) (selected : List PuzzleRec) (seen : List Str),
      attempts + fuel = 12 →
      selected.map PuzzleRec.pid = seen →
      seen.Nodup →
      (∀ x ∈ seen, x = A ∨ x = B) →
      (∀ m, m < attempts → ∀ r ∈ fetch m, r.pid ∉ used → r.pid ∈ seen) →
      ∃ seen2 : List Str,
        pickManyGo 3 fetch shuffle used fuel attempts selected seen =
          .error (.insufficient seen2.length 12)
        ∧ seen2.Nodup
        ∧ (∀ x ∈ seen2, x = A ∨ x = B)
        ∧ (∀ m, m < 12 → ∀ r ∈ fetch m, r.pid ∉ used → r.pid ∈ seen2) := by
  intro fuel
  induction fuel with
  | zero =>
    intro attempts selected seen hsum hmap hnd hABm habs
    have hlen2 : seen.length ≤ 2 := length_le_two_of_nodup_subset hnd hABm
    have hsellen : selected.length = seen.length := by
      rw [← hmap, List.length_map]
    have h12 : attempts = 12 := by omega
    subst h12
    refine ⟨seen, ?_, hnd, hABm, fun m hm => habs m hm⟩
    rw [pickManyGo, if_pos (by omega), hsellen]
  | succ fuel ih =>
    intro attempts selected seen hsum hmap hnd hABm habs
    have hlen2 : seen.length ≤ 2 := length_le_two_of_nodup_subset hnd hABm
    have hsellen : selected.length = seen.length := by
      rw [← hmap, List.length_map]
    have hatt : attempts < 12 := by omega
    by_cases hf : (fetch attempts).filter
        (fun r => decide (r.pid ∉ used) && decide (r.pid ∉ seen)) = []
    · have hstep : pickManyGo 3 fetch shuffle used (fuel + 1) attempts selected seen =
          pickManyGo 3 fetch shuffle used fuel (attempts + 1) selected seen := by
        rw [pickManyGo, if_pos (by omega)]
        simp only [hf]
        rw [if_pos trivial]
      have habs2 : ∀ m, m < attempts + 1 → ∀ r ∈ fetch m, r.pid ∉ used →
          r.pid ∈ seen := by
        intro m hm r hr hru
        rcases Nat.lt_succ_iff_lt_or_eq.mp hm with h | h
        · exact habs m h r hr hru
        · subst h
          by_contra hns
          have hrf : r ∈ (fetch m).filter
              (fun r => decide (r.pid ∉ used) && decide (r.pid ∉ seen)) :=
            List.mem_filter.mpr ⟨hr, by simp [hru, hns]⟩
          rw [hf] at hrf
          exact absurd hrf (List.not_mem_nil r)
      obtain ⟨seen2, hrun, h1, h2, h3⟩ :=
        ih (attempts + 1) selected seen (by omega) hmap hnd hABm habs2
      exact ⟨seen2, by rw [hstep]; exact hrun, h1, h2, h3⟩
    · set F := (fetch attempts).filter
          (fun r => decide (r.pid ∉ used) && decide (r.pid ∉ seen)) with hFdef
      have hFnodup : (F.map PuzzleRec.pid).Nodup := by
        have hsubl : List.Sublist (F.map PuzzleRec.pid)
            ((fetch attempts).map PuzzleRec.pid) :=
          List.Sublist.map _ (List.filter_sublist _)
        exact (hnodup attempts hatt).sublist hsubl
      have hFnotseen : ∀ x ∈ F.map PuzzleRec.pid, x ∉ seen := by
        intro x hx
        obtain ⟨r, hrm, hrp⟩ := List.mem_map.mp hx
        have hcond := (List.mem_filter.mp hrm).2
        simp only [Bool.and_eq_true, decide_eq_true_eq] at hcond
        exact hrp ▸ hcond.2
      have hFAB : ∀ x ∈ F.map PuzzleRec.pid, x = A ∨ x = B := by
        intro x hx
        obtain ⟨r, hrm, hrp⟩ := List.mem_map.mp hx
        have hmemb := (List.mem_filter.mp hrm).1
        have hcond := (List.mem_filter.mp hrm).2
        simp only [Bool.and_eq_true, decide_eq_true_eq] at hcond
        exact hrp ▸ hsub attempts hatt r hmemb hcond.1
      have hcombnd : ((F.map PuzzleRec.pid) ++ seen).Nodup :=
        List.Nodup.append hFnodup hnd (fun a ha hb => hFnotseen a ha hb)
      have hcombAB : ∀ x ∈ (F.map PuzzleRec.pid) ++ seen, x = A ∨ x = B := by
        intro x hx
        rcases List.mem_append.mp hx with h | h
        · exact hFAB x h
        · exact hABm x h
      have hcomblen : F.length + seen.length ≤ 2 := by
        have hcl := length_le_two_of_nodup_subset hcombnd hcombAB
        simp only [List.length_append, List.length_map] at hcl
        omega
      have hshlen : (shuffle attempts F).length = F.length := (hsh attempts F).length_eq
      have htake : (shuffle attempts F).take (3 - selected.length) =
          shuffle attempts F :=
        List.take_of_length_le (by omega)
      have hpermmap : List.Perm ((shuffle attempts F).map PuzzleRec.pid)
          (F.map PuzzleRec.pid) :=
        (hsh attempts F).map PuzzleRec.pid
      have hChosenNodup : ((shuffle attempts F).map PuzzleRec.pid).Nodup :=
        (hpermmap.nodup_iff).mpr hFnodup
      have hChosenNotseen : ∀ x ∈ (shuffle attempts F).map PuzzleRec.pid, x ∉ seen :=
        fun x hx => hFnotseen x (hpermmap.mem_iff.mp hx)
      have haddseen : addSeen seen ((shuffle attempts F).map PuzzleRec.pid) =
          seen ++ (shuffle attempts F).map PuzzleRec.pid :=
        addSeen_of_disjoint _ _ hChosenNotseen hChosenNodup
      have hstep : pickManyGo 3 fetch shuffle used (fuel + 1) attempts selected seen =
          pickManyGo 3 fetch shuffle used fuel (attempts + 1)
            (selected ++ shuffle attempts F)
            (seen ++ (shuffle attempts F).map PuzzleRec.pid) := by
        rw [pickManyGo, if_pos (by omega)]
        simp only [← hFdef, if_neg hf, htake, haddseen]
      have hmap2 : (selected ++ shuffle attempts F).map PuzzleRec.pid =
          seen ++ (shuffle attempts F).map PuzzleRec.pid := by
        rw [List.map_append, hmap]
      have hnd2 : (seen ++ (shuffle attempts F).map PuzzleRec.pid).Nodup :=
        List.Nodup.append hnd hChosenNodup
          (fun a ha hb => hChosenNotseen a hb ha)
      have hABm2 : ∀ x ∈ seen ++ (shuffle attempts F).map PuzzleRec.pid,
          x = A ∨ x = B := by
        intro x hx
        rcases List.mem_append.mp hx with h | h
        · exact hABm x h
        · exact hFAB x (hpermmap.mem_iff.mp h)
      have habs2 : ∀ m, m < attempts + 1 → ∀ r ∈ fetch m, r.pid ∉ used →
          r.pid ∈ seen ++ (shuffle attempts F).map PuzzleRec.pid := by
        intro m hm r hr hru
        rcases Nat.lt_succ_iff_lt_or_eq.mp hm with h | h
        · exact List.mem_append_left _ (habs m h r hr hru)
        · subst h
          by_cases hns : r.pid ∈ seen
          · exact List.mem_append_left _ hns
          · have hrf : r ∈ F := by
              rw [hFdef]
              exact List.mem_filter.mpr ⟨hr, by simp [hru, hns]⟩
            have : r.pid ∈ F.map PuzzleRec.pid :=
              List.mem_map.mpr ⟨r, hrf, rfl⟩
            exact List.mem_append_right _ (hpermmap.mem_iff.mpr this)
      obtain ⟨seen2, hrun, h1, h2, h3⟩ :=
        ih (attempts + 1) (selected ++ shuffle attempts F)
          (seen ++ (shuffle attempts F).map PuzzleRec.pid)
          (by omega) hmap2 hnd2 hABm2 habs2
      exact ⟨seen2, by rw [hstep]; exact hrun, h1, h2, h3⟩

/-- C6 (amended): `pick_many(count)` is budgeted by `max(5, count*4)` fetch
attempts; over an upstream that, within that budget and with no id repeated
inside a single batch, yields only the 2 unique never-before-seen ids `A`
and `B`, `pick_many(count = 3)` fails with `InsufficientUniquePuzzles`
reporting 2 obtained after all 12 = max(5, 3*4) fetches.  (When a single
batch repeats a fresh id, the count can instead be filled with duplicates —
see the counterexample.) -/
theorem pick_many_insufficient_two_unique (fetch : Nat → List PuzzleRec)
    (shuffle : Nat → List PuzzleRec → List PuzzleRec) (st : CorpusSt)
    (A B : Str)
    (hAB : A ≠ B)
    (hAu : A ∉ _previously_used_puzzle_ids st)
    (hBu : B ∉ _previously_used_puzzle_ids st)
    (hnodup : ∀ n, n < 12 → ((fetch n).map PuzzleRec.pid).Nodup)
    (hsub : ∀ n, n < 12 → ∀ r ∈ fetch n,
      r.pid ∉ _previously_used_puzzle_ids st → r.pid = A ∨ r.pid = B)
    (hsh : ∀ n l, List.Perm (shuffle n l) l)
    (hAapp : ∃ n, n < 12 ∧ ∃ r ∈ fetch n, r.pid = A)
    (hBapp : ∃ n, n < 12 ∧ ∃ r ∈ fetch n, r.pid = B) :
    cmd_get_multi 3 fetch shuffle st = .error (.insufficient 2 12) := by
  obtain ⟨seen2, hrun, hnd2, hAB2, habs2⟩ :=
    pickManyGo_two_ids fetch shuffle (_previously_used_puzzle_ids st) A B
      hnodup hsub hsh 12 0 [] [] rfl rfl List.nodup_nil
      (fun x hx => absurd hx (List.not_mem_nil x))
      (fun m hm => absurd hm (Nat.not_lt_zero m))
  obtain ⟨nA, hnA, rA, hrA, hpidA⟩ := hAapp
  obtain ⟨nB, hnB, rB, hrB, hpidB⟩ := hBapp
  have hAmem : A ∈ seen2 := by
    rw [← hpidA]
    exact habs2 nA hnA rA hrA (by rw [hpidA]; exact hAu)
  have hBmem : B ∈ seen2 := by
    rw [← hpidB]
    exact habs2 nB hnB rB hrB (by rw [hpidB]; exact hBu)
  have hle : seen2.length ≤ 2 := length_le_two_of_nodup_subset hnd2 hAB2
  have hge : 2 ≤ seen2.length := by
    have hABnd : ([A, B] : List Str).Nodup := by simp [hAB]
    have hsubAB : ([A, B] : List Str) ⊆ seen2 := by
      intro x hx
      rcases List.mem_cons.mp hx with h | h
      · exact h ▸ hAmem
      · have : x = B := by simpa using h
        exact this ▸ hBmem
    have := (hABnd.subperm hsubAB).length_le
    simpa using this
  have hlen : seen2.length = 2 := le_antisymm hle hge
  unfold cmd_get_multi
  rw [show max 5 (3 * 4) = 12 by decide]
  rw [hrun, hlen]

theorem pick_many_insufficient_two_unique_witness :
    cmd_get_multi 3 (fun _ => [⟨("aa".toList)⟩, ⟨("bb".toList)⟩])
        (fun _ l => l) [] =
      .error (.insufficient 2 12) :=
  pick_many_insufficient_two_unique
    (fun _ => [⟨("aa".toList)⟩, ⟨("bb".toList)⟩]) (fun _ l => l) []
    ("aa".toList) ("bb".toList) (by decide) (by decide) (by decide)
    (fun n _ => by
      show (List.map PuzzleRec.pid
        [⟨("aa".toList)⟩, ⟨("bb".toList)⟩]).Nodup
      decide)
    (fun n _ => by
      show ∀ r ∈ [(⟨("aa".toList)⟩ : PuzzleRec), ⟨("bb".toList)⟩],
        r.pid ∉ _previously_used_puzzle_ids [] →
          r.pid = ("aa".toList) ∨ r.pid = ("bb".toList)
      decide)
    (fun n l => List.Perm.refl l)
    ⟨0, by decide, ⟨("aa".toList)⟩, by decide, rfl⟩
    ⟨0, by decide, ⟨("bb".toList)⟩, by decide, rfl⟩
